import Mathlib

/-!
Verification development for the PERSIA embedding-entry module
(src/rust/persia-embedding-holder/src/emb_entry.rs).

Embedding conventions:
- Rust f32 buffer values are modelled as rationals; for the byte-level
  serialization claims the payload elements are modelled as their 32-bit
  patterns (naturals below 2^32).
- Machine integers (u64, usize) are naturals, reduced modulo 2^64 where
  overflow matters.
- A Rust panic is modelled as an Option returning none.
-/

namespace PersiaEmb

/-- Modelled from the spec: the deterministic pseudo-random generator behind
the Initializer. The source seeds a SmallRng (external rand crate, not part
of this repository) with seed_from_u64 of the seed argument alone; we model
the generator by the SplitMix64 output mixer that seed_from_u64 uses. The
structurally decisive facts kept from the source are that the stream is a
pure function of the 64-bit seed and the sample index, and of nothing else. -/
def splitmixMix (s : Nat) : Nat :=
  let z1 := ((s ^^^ (s >>> 30)) * 0xBF58476D1CE4E5B9) % 2 ^ 64
  let z2 := ((z1 ^^^ (z1 >>> 27)) * 0x94D049BB133111EB) % 2 ^ 64
  z2 ^^^ (z2 >>> 31)

/-- Modelled from the spec: the i-th raw 64-bit output of the generator
seeded from the given 64-bit seed (SplitMix64 stream). -/
def rngOutput (seed i : Nat) : Nat :=
  splitmixMix ((seed + (i + 1) * 0x9E3779B97F4A7C15) % 2 ^ 64)

/-- Modelled from the spec: the i-th unit-interval sample of the generator:
the high 32 bits of the i-th raw output, scaled into the interval from 0
inclusive to 1 exclusive. -/
def unitSample (seed i : Nat) : ℚ :=
  ((rngOutput seed i >>> 32 : Nat) : ℚ) / (2 ^ 32 : ℚ)

/-- Modelled from the spec: the InitializationMethod configuration enum from
persia-embedding-config, which is code of this repository not under src/.
The four bounded distributions carry their numeric parameters (spec section
6); the catch-all arm of the match in HashMapEmbeddingEntry.new shows the
real enum has further variants, represented here by the Unsupported
constructor with an arbitrary tag. -/
inductive InitializationMethod where
  | BoundedUniform (lower upper : ℚ)
  | BoundedGamma (shape scale : ℚ)
  | BoundedPoisson (lambda : ℚ)
  | BoundedNormal (mean standard_deviation : ℚ)
  | Unsupported (tag : Nat)
deriving DecidableEq, Repr

/-- Modelled from the spec: one sampled value of the configured distribution,
as a deterministic function of the distribution parameters, the seed and the
sample index (the external ndarray-rand samplers are driven by the seeded
generator and nothing else). A BoundedUniform sample lies in the half-open
interval from lower to upper. -/
def sampleOne (m : InitializationMethod) (seed i : Nat) : ℚ :=
  match m with
  | .BoundedUniform lower upper => lower + unitSample seed i * (upper - lower)
  | .BoundedGamma shape scale => shape * scale * unitSample seed i
  | .BoundedPoisson lambda => lambda * unitSample seed i
  | .BoundedNormal mean standard_deviation =>
      mean + standard_deviation * (unitSample seed i - 1 / 2)
  | .Unsupported _ => 0

/-- Modelled from the spec: validity of the distribution parameters. The
source unwraps the external constructors Gamma.new, Poisson.new, Normal.new
and Uniform.new panics on an empty range, so invalid parameters abort; the
catch-all arm of the match makes every remaining variant abort
unconditionally. -/
def methodValid : InitializationMethod → Bool
  | .BoundedUniform lower upper => decide (lower < upper)
  | .BoundedGamma shape scale => decide (0 < shape) && decide (0 < scale)
  | .BoundedPoisson lambda => decide (0 < lambda)
  | .BoundedNormal _ standard_deviation => decide (0 ≤ standard_deviation)
  | .Unsupported _ => false

/-- Distinguishes the four supported bounded distributions from every other
variant of the configuration enum (the ones hitting the catch-all panic arm
in HashMapEmbeddingEntry.new). -/
def isBoundedMethod : InitializationMethod → Bool
  | .Unsupported _ => false
  | _ => true

/-- The hashmap-backed embedding entry: one contiguous buffer, the length of
the trainable weight region, and the feature sign (emb_entry.rs lines
157-167). -/
structure HashMapEmbeddingEntry where
  inner : List ℚ
  embedding_dim : Nat
  sign : Nat
deriving DecidableEq, Repr

namespace HashMapEmbeddingEntry

/-- HashMapEmbeddingEntry::new (emb_entry.rs lines 170-210): samples dim
values from the configured distribution with a generator seeded from the
seed argument alone, then appends require_space zeros for optimizer state.
none models the Rust panics (unsupported variant, invalid parameters). -/
def new (initialization_method : InitializationMethod)
    (dim require_space seed sign : Nat) : Option HashMapEmbeddingEntry :=
  if methodValid initialization_method then
    let emb := (List.range dim).map (fun i => sampleOne initialization_method seed i)
    let inner :=
      if require_space > 0 then emb ++ List.replicate require_space 0 else emb
    some ⟨inner, dim, sign⟩
  else
    none

/-- HashMapEmbeddingEntry::new_empty (emb_entry.rs lines 212-218). -/
def new_empty (dim require_space sign : Nat) : HashMapEmbeddingEntry :=
  ⟨List.replicate (dim + require_space) 0, dim, sign⟩

/-- HashMapEmbeddingEntry::from_emb (emb_entry.rs lines 220-227). -/
def from_emb (emb : List ℚ) (sign : Nat) : HashMapEmbeddingEntry :=
  ⟨emb, emb.length, sign⟩

/-- HashMapEmbeddingEntry::from_emb_and_opt (emb_entry.rs lines 229-238). -/
def from_emb_and_opt (emb : List ℚ) (opt : List ℚ) (sign : Nat) :
    HashMapEmbeddingEntry :=
  ⟨emb ++ opt, emb.length, sign⟩

/-- Effect of the copy loop in copy_from_other: the zip of iter_mut with
iter overwrites the front of the destination with elements of the source,
stopping at the shorter of the two, and leaves the rest of the destination
unchanged. -/
def overwriteFront : List ℚ → List ℚ → List ℚ
  | dst, [] => dst
  | [], _ => []
  | _ :: ds, s :: ss => s :: overwriteFront ds ss

/-- HashMapEmbeddingEntry::copy_from_other (emb_entry.rs lines 240-248):
returns false and leaves the entry untouched when the embedding dims differ,
otherwise runs the zip copy loop and returns true. The pair carries the
returned bool and the destination entry after the call. -/
def copy_from_other (e other : HashMapEmbeddingEntry) :
    Bool × HashMapEmbeddingEntry :=
  if e.embedding_dim ≠ other.embedding_dim then
    (false, e)
  else
    (true, ⟨overwriteFront e.inner other.inner, e.embedding_dim, e.sign⟩)

/-- HashMapEmbeddingEntry::inner_size (emb_entry.rs lines 258-260). -/
def inner_size (e : HashMapEmbeddingEntry) : Nat :=
  e.inner.length

/-- HashMapEmbeddingEntry::dim (emb_entry.rs lines 262-264). -/
def dim (e : HashMapEmbeddingEntry) : Nat :=
  e.embedding_dim

/-- HashMapEmbeddingEntry::emb (emb_entry.rs lines 270-272): the slice of
inner up to embedding_dim; the Rust range indexing panics (none) when
embedding_dim exceeds the buffer length. -/
def emb? (e : HashMapEmbeddingEntry) : Option (List ℚ) :=
  if e.embedding_dim ≤ e.inner.length then
    some (e.inner.take e.embedding_dim)
  else
    none

/-- HashMapEmbeddingEntry::opt (emb_entry.rs lines 283-285): the slice of
inner from embedding_dim on; the Rust range indexing panics (none) when
embedding_dim exceeds the buffer length. -/
def opt? (e : HashMapEmbeddingEntry) : Option (List ℚ) :=
  if e.embedding_dim ≤ e.inner.length then
    some (e.inner.drop e.embedding_dim)
  else
    none

/-- HashMapEmbeddingEntry::emb_and_opt_mut (emb_entry.rs lines 292-295):
split_at_mut at embedding_dim; panics (none) when embedding_dim exceeds the
buffer length. -/
def emb_and_opt_mut? (e : HashMapEmbeddingEntry) :
    Option (List ℚ × List ℚ) :=
  if e.embedding_dim ≤ e.inner.length then
    some (e.inner.take e.embedding_dim, e.inner.drop e.embedding_dim)
  else
    none

/-- A store at index i of the mutable weight slice returned by emb_mut
(emb_entry.rs lines 274-277): only the buffer is written, the dim and sign
fields are untouched. -/
def emb_mut_write (e : HashMapEmbeddingEntry) (i : Nat) (v : ℚ) :
    HashMapEmbeddingEntry :=
  ⟨e.inner.set i v, e.embedding_dim, e.sign⟩

/-- A store at index i of the mutable optimizer slice returned by opt_mut
(emb_entry.rs lines 287-290): writes land at offset embedding_dim + i of the
buffer, the dim and sign fields are untouched. -/
def opt_mut_write (e : HashMapEmbeddingEntry) (i : Nat) (v : ℚ) :
    HashMapEmbeddingEntry :=
  ⟨e.inner.set (e.embedding_dim + i) v, e.embedding_dim, e.sign⟩

/-- EvictionMapValue for HashMapEmbeddingEntry (emb_entry.rs lines 302-306):
the key the entry reports to the eviction container is its sign field. -/
def hashmap_key (e : HashMapEmbeddingEntry) : Nat :=
  e.sign

end HashMapEmbeddingEntry

/-- Modelled from the spec: little-endian base-256 encoding into w bytes, as
used by the persia-speedy primitive writers (code of this repository not
under src/); spec section 6 fixes 64-bit unsigned fields and little-endian
32-bit payload elements. -/
def toLEBytes : Nat → Nat → List Nat
  | 0, _ => []
  | w + 1, n => n % 256 :: toLEBytes w (n / 256)

/-- Modelled from the spec: little-endian decoding of a byte list, inverse
of toLEBytes on values that fit. -/
def fromLEBytes : List Nat → Nat
  | [] => 0
  | b :: bs => b + 256 * fromLEBytes bs

/-- The inline-array embedding entry (emb_entry.rs lines 54-60) as it
matters to the serialization claims: the payload elements are kept as their
32-bit patterns. -/
structure ArrayEmbeddingEntry where
  inner : List Nat
  embedding_dim : Nat
  sign : Nat
deriving DecidableEq, Repr

namespace ArrayEmbeddingEntry

/-- Writable::write_to for ArrayEmbeddingEntry (emb_entry.rs lines 111-125):
writes embedding_dim, then sign, then the payload slice. Modelled from the
spec: the persia-speedy field encodings (not under src/) are the 64-bit
little-endian integer for embedding_dim and sign and the bare sequence of
little-endian 32-bit payload elements. -/
def write_to (e : ArrayEmbeddingEntry) : List Nat :=
  toLEBytes 8 e.embedding_dim ++ toLEBytes 8 e.sign ++
    (e.inner.map (toLEBytes 4)).flatten

/-- Decodes the payload region: consecutive 4-byte little-endian elements up
to the end of the input, failing when the input length is not a multiple of
four. -/
def readPayload : List Nat → Option (List Nat)
  | [] => some []
  | b0 :: b1 :: b2 :: b3 :: rest =>
      (readPayload rest).map (fun ws => fromLEBytes [b0, b1, b2, b3] :: ws)
  | _ => none

/-- Readable::read_from for ArrayEmbeddingEntry (emb_entry.rs lines
127-145): reads embedding_dim, then sign, then the payload vector; fails
(none) on truncated input. -/
def read_from (bs : List Nat) : Option ArrayEmbeddingEntry :=
  match bs with
  | d0 :: d1 :: d2 :: d3 :: d4 :: d5 :: d6 :: d7 ::
    s0 :: s1 :: s2 :: s3 :: s4 :: s5 :: s6 :: s7 :: rest =>
      (readPayload rest).map (fun ws =>
        ⟨ws, fromLEBytes [d0, d1, d2, d3, d4, d5, d6, d7],
          fromLEBytes [s0, s1, s2, s3, s4, s5, s6, s7]⟩)
  | _ => none

end ArrayEmbeddingEntry

/-! Helper lemmas about the generator, the copy loop and the byte codecs. -/

lemma xor_shiftRight_lt {z k : Nat} (hz : z < 2 ^ 64) : z ^^^ z >>> k < 2 ^ 64 :=
  Nat.bitwise_lt hz
    (lt_of_le_of_lt
      (by rw [Nat.shiftRight_eq_div_pow]; exact Nat.div_le_self _ _) hz)

lemma splitmixMix_lt (s : Nat) : splitmixMix s < 2 ^ 64 := by
  simp only [splitmixMix]
  exact xor_shiftRight_lt (Nat.mod_lt _ (by norm_num))

lemma rngOutput_lt (seed i : Nat) : rngOutput seed i < 2 ^ 64 :=
  splitmixMix_lt _

lemma rngHigh_lt (seed i : Nat) : rngOutput seed i >>> 32 < 2 ^ 32 := by
  rw [Nat.shiftRight_eq_div_pow]
  refine Nat.div_lt_of_lt_mul ?_
  calc rngOutput seed i < 2 ^ 64 := rngOutput_lt seed i
    _ = 2 ^ 32 * 2 ^ 32 := by norm_num

lemma unitSample_nonneg (seed i : Nat) : 0 ≤ unitSample seed i := by
  unfold unitSample
  positivity

lemma unitSample_lt_one (seed i : Nat) : unitSample seed i < 1 := by
  unfold unitSample
  rw [div_lt_one (by positivity)]
  exact_mod_cast rngHigh_lt seed i

lemma sampleOne_uniform_bounds (lower upper : ℚ) (seed i : Nat)
    (h : lower < upper) :
    lower ≤ sampleOne (.BoundedUniform lower upper) seed i ∧
      sampleOne (.BoundedUniform lower upper) seed i < upper := by
  have h0 := unitSample_nonneg seed i
  have h1 := unitSample_lt_one seed i
  have hpos : (0 : ℚ) < upper - lower := by linarith
  constructor
  · have hn : 0 ≤ unitSample seed i * (upper - lower) :=
      mul_nonneg h0 (le_of_lt hpos)
    simp only [sampleOne]
    linarith
  · have hlt : unitSample seed i * (upper - lower) < upper - lower :=
      mul_lt_of_lt_one_left hpos h1
    simp only [sampleOne]
    linarith

lemma overwriteFront_eq (dst src : List ℚ) :
    HashMapEmbeddingEntry.overwriteFront dst src =
      src.take dst.length ++ dst.drop src.length := by
  induction dst generalizing src with
  | nil => cases src <;> rfl
  | cons d ds ih =>
      cases src with
      | nil => simp [HashMapEmbeddingEntry.overwriteFront]
      | cons s ss => simp [HashMapEmbeddingEntry.overwriteFront, ih]

lemma overwriteFront_length (dst src : List ℚ) :
    (HashMapEmbeddingEntry.overwriteFront dst src).length = dst.length := by
  rw [overwriteFront_eq]
  simp only [List.length_append, List.length_take, List.length_drop]
  omega

lemma new_eq_of_valid (m : InitializationMethod)
    (dim require_space seed sign : Nat) (hv : methodValid m = true) :
    HashMapEmbeddingEntry.new m dim require_space seed sign =
      some ⟨(List.range dim).map (fun i => sampleOne m seed i) ++
          List.replicate require_space 0, dim, sign⟩ := by
  simp only [HashMapEmbeddingEntry.new, hv, if_true]
  rcases Nat.eq_zero_or_pos require_space with h | h
  · subst h
    simp
  · rw [if_pos h]

lemma toLEBytes_length (w n : Nat) : (toLEBytes w n).length = w := by
  induction w generalizing n with
  | zero => rfl
  | succ w ih => simp [toLEBytes, ih]

lemma fromLEBytes_toLEBytes (w n : Nat) (h : n < 256 ^ w) :
    fromLEBytes (toLEBytes w n) = n := by
  induction w generalizing n with
  | zero =>
      have hn : n = 0 := by simpa using h
      simp [toLEBytes, fromLEBytes, hn]
  | succ w ih =>
      have h' : n / 256 < 256 ^ w := by
        refine Nat.div_lt_of_lt_mul ?_
        calc n < 256 ^ (w + 1) := h
          _ = 256 * 256 ^ w := by rw [pow_succ, Nat.mul_comm]
      simp only [toLEBytes, fromLEBytes]
      rw [ih (n / 256) h']
      exact Nat.mod_add_div n 256

lemma flatten4_length (inn : List Nat) :
    ((inn.map (toLEBytes 4)).flatten).length = 4 * inn.length := by
  induction inn with
  | nil => rfl
  | cons w ws ih =>
      simp only [List.map_cons, List.flatten_cons, List.length_append,
        toLEBytes_length, ih, List.length_cons]
      ring

lemma take_length_append {α : Type} (l1 l2 : List α) (n : Nat)
    (h : l1.length = n) : (l1 ++ l2).take n = l1 := by
  subst h
  exact List.take_left l1 l2

lemma drop_length_append {α : Type} (l1 l2 : List α) (n : Nat)
    (h : l1.length = n) : (l1 ++ l2).drop n = l2 := by
  subst h
  exact List.drop_left l1 l2

lemma readPayload_flatten (ws : List Nat) (hw : ∀ w ∈ ws, w < 2 ^ 32) :
    ArrayEmbeddingEntry.readPayload ((ws.map (toLEBytes 4)).flatten) =
      some ws := by
  induction ws with
  | nil => rfl
  | cons w ws ih =>
      have hw0 : w < 2 ^ 32 := hw w (by simp)
      have hwrest : ∀ x ∈ ws, x < 2 ^ 32 := fun x hx => hw x (by simp [hx])
      have hto : toLEBytes 4 w =
          [w % 256, w / 256 % 256, w / 256 / 256 % 256,
            w / 256 / 256 / 256 % 256] := rfl
      have hfrom : fromLEBytes [w % 256, w / 256 % 256, w / 256 / 256 % 256,
          w / 256 / 256 / 256 % 256] = w := by
        rw [← hto]
        refine fromLEBytes_toLEBytes 4 w ?_
        norm_num at hw0 ⊢
        omega
      have h0 : ∀ x : Nat, toLEBytes 0 x = [] := fun _ => rfl
      simp only [List.map_cons, List.flatten_cons, hto, List.cons_append,
        List.nil_append, List.append_eq, h0,
        ArrayEmbeddingEntry.readPayload, ih hwrest, hfrom, Option.map_some']

/-! Theorems settling the claims about HashMapEmbeddingEntry. -/

/-- Claim C1 (amended): copy_from_other returns false and leaves the
destination untouched when the embedding dims differ; when they match it
returns true and overwrites the front of the destination buffer with the
source buffer, leaving any trailing destination elements beyond the source
buffer length unchanged — so the result is an exact element-wise copy of
the source buffer exactly when the two buffer lengths coincide. -/
theorem copy_from_other_spec (dst src : HashMapEmbeddingEntry) :
    dst.copy_from_other src =
      if dst.embedding_dim = src.embedding_dim then
        (true,
          ⟨src.inner.take dst.inner.length ++ dst.inner.drop src.inner.length,
            dst.embedding_dim, dst.sign⟩)
      else
        (false, dst) := by
  unfold HashMapEmbeddingEntry.copy_from_other
  rcases eq_or_ne dst.embedding_dim src.embedding_dim with h | h
  · rw [if_neg (by simp [h]), if_pos h, overwriteFront_eq]
  · rw [if_pos h, if_neg h]

/-- Claim C1 as frozen is refuted at a concrete input: both entries have
embedding_dim 1, so copy_from_other returns true, yet afterwards the
destination buffer is [2, 5], not an element-wise copy of the source buffer
[2], because the buffers have different lengths. -/
theorem copy_from_other_claim_counterexample :
    ((HashMapEmbeddingEntry.from_emb_and_opt [1] [5] 7).copy_from_other
          (HashMapEmbeddingEntry.from_emb [2] 9)).1 = true ∧
      ((HashMapEmbeddingEntry.from_emb_and_opt [1] [5] 7).copy_from_other
            (HashMapEmbeddingEntry.from_emb [2] 9)).2.inner ≠
        (HashMapEmbeddingEntry.from_emb [2] 9).inner := by
  decide

/-- Claim C2 (amended): the generator seed used by new is derived from the
seed argument alone; the sign argument does not participate in the seeding,
so for a fixed method, dim, extra space and seed the sampled buffer is
identical across distinct signs. -/
theorem new_seed_independent_of_sign (m : InitializationMethod)
    (dim require_space seed sign1 sign2 : Nat) :
    (HashMapEmbeddingEntry.new m dim require_space seed sign1).map
        HashMapEmbeddingEntry.inner =
      (HashMapEmbeddingEntry.new m dim require_space seed sign2).map
        HashMapEmbeddingEntry.inner := by
  unfold HashMapEmbeddingEntry.new
  split <;> rfl

/-- Claim C2 as frozen is refuted at a concrete input: signs 7 and 8
differ, yet with the same seed 5 new produces identical weight buffers, so
the sign does not participate in the seeding. -/
theorem new_sign_counterexample :
    (HashMapEmbeddingEntry.new (.BoundedUniform 0 1) 2 0 5 7).map
        HashMapEmbeddingEntry.inner =
      (HashMapEmbeddingEntry.new (.BoundedUniform 0 1) 2 0 5 8).map
        HashMapEmbeddingEntry.inner ∧
      (7 : Nat) ≠ 8 :=
  ⟨rfl, by decide⟩

/-- Claim C4: new is deterministic — two invocations with identical method
(including its numeric parameters), dim, require_space, seed and sign
produce equal entries, in particular element-for-element identical
buffers. -/
theorem new_deterministic (m : InitializationMethod)
    (dim require_space seed sign : Nat) (e1 e2 : HashMapEmbeddingEntry)
    (h1 : HashMapEmbeddingEntry.new m dim require_space seed sign = some e1)
    (h2 : HashMapEmbeddingEntry.new m dim require_space seed sign = some e2) :
    e1 = e2 :=
  Option.some.inj (h1.symm.trans h2)

/-- Concrete entry produced by new with BoundedUniform(0,1), dim 8, no extra
space, seed 42, sign 7; used to witness the determinism claim. -/
def uniformEntry42 : HashMapEmbeddingEntry :=
  ⟨[1592498451 / 2147483648, 686809907 / 4294967296, 1196582743 / 4294967296,
    1478287871 / 4294967296, 81669165 / 2147483648, 1864505597 / 2147483648,
    234510791 / 1073741824, 1719343863 / 2147483648], 8, 7⟩

lemma new_uniform42_eval :
    HashMapEmbeddingEntry.new (.BoundedUniform 0 1) 8 0 42 7 =
      some uniformEntry42 := by
  rw [new_eq_of_valid _ 8 0 42 7 (by decide)]
  simp only [sampleOne, unitSample, rngOutput, splitmixMix, uniformEntry42,
    List.range_succ, List.map_append, List.map_cons, List.map_nil,
    List.replicate, List.append_nil, Nat.reducePow, Nat.reduceMul,
    Nat.reduceAdd, Nat.reduceMod, Nat.reduceShiftRight, Nat.reduceXor,
    Nat.reduceDiv, Option.some.injEq, HashMapEmbeddingEntry.mk.injEq]
  norm_num

/-- Witness for the determinism claim at the concrete input named by the
spec: seed 42, sign 7, dim 8, BoundedUniform(0,1). -/
theorem new_deterministic_witness :
    HashMapEmbeddingEntry.new (.BoundedUniform 0 1) 8 0 42 7 =
        some uniformEntry42 ∧
      uniformEntry42 = uniformEntry42 :=
  ⟨new_uniform42_eval,
    new_deterministic (.BoundedUniform 0 1) 8 0 42 7 uniformEntry42
      uniformEntry42 new_uniform42_eval new_uniform42_eval⟩

/-- Claim C5: an entry built by new with BoundedUniform(lower, upper) has a
buffer of total length dim + require_space; its weight slice emb consists
of the first dim elements, each lying in the half-open interval from lower
(inclusive) to upper (exclusive), and its optimizer slice opt is exactly
require_space zeros. -/
theorem new_bounded_uniform_spec (lower upper : ℚ)
    (dim require_space seed sign : Nat) (e : HashMapEmbeddingEntry)
    (hlt : lower < upper)
    (hnew : HashMapEmbeddingEntry.new (.BoundedUniform lower upper) dim
        require_space seed sign = some e) :
    e.inner.length = dim + require_space ∧
      e.emb? = some (e.inner.take dim) ∧
      (∀ v ∈ e.inner.take dim, lower ≤ v ∧ v < upper) ∧
      e.opt? = some (List.replicate require_space (0 : ℚ)) := by
  have hv : methodValid (.BoundedUniform lower upper) = true := by
    simp [methodValid, hlt]
  rw [new_eq_of_valid _ _ _ _ _ hv] at hnew
  obtain rfl : e = _ := (Option.some.inj hnew).symm
  have hmaplen :
      ((List.range dim).map
        (fun i => sampleOne (.BoundedUniform lower upper) seed i)).length =
        dim := by
    simp
  have hlen :
      ((List.range dim).map
          (fun i => sampleOne (.BoundedUniform lower upper) seed i) ++
        List.replicate require_space (0 : ℚ)).length = dim + require_space := by
    simp
  have htake :
      ((List.range dim).map
          (fun i => sampleOne (.BoundedUniform lower upper) seed i) ++
        List.replicate require_space (0 : ℚ)).take dim =
        (List.range dim).map
          (fun i => sampleOne (.BoundedUniform lower upper) seed i) := by
    nth_rewrite 1 [← hmaplen]
    rw [List.take_left]
  have hdrop :
      ((List.range dim).map
          (fun i => sampleOne (.BoundedUniform lower upper) seed i) ++
        List.replicate require_space (0 : ℚ)).drop dim =
        List.replicate require_space (0 : ℚ) := by
    nth_rewrite 1 [← hmaplen]
    rw [List.drop_left]
  refine ⟨hlen, ?_, ?_, ?_⟩
  · simp only [HashMapEmbeddingEntry.emb?]
    rw [if_pos (by rw [hlen]; omega)]
  · intro v hv'
    rw [htake] at hv'
    obtain ⟨i, _, rfl⟩ := List.mem_map.mp hv'
    exact sampleOne_uniform_bounds lower upper seed i hlt
  · simp only [HashMapEmbeddingEntry.opt?]
    rw [if_pos (by rw [hlen]; omega), hdrop]

/-- Concrete entry produced by new with BoundedUniform(0,1), dim 4, two
extra optimizer floats, seed 1, sign 123; used to witness the concrete
scenario of the spec. -/
def uniformEntry123 : HashMapEmbeddingEntry :=
  ⟨[608340859 / 1073741824, 3203108257 / 4294967296, 2085212535 / 2147483648,
    119281769 / 268435456, 0, 0], 4, 123⟩

lemma new_uniform123_eval :
    HashMapEmbeddingEntry.new (.BoundedUniform 0 1) 4 2 1 123 =
      some uniformEntry123 := by
  rw [new_eq_of_valid _ 4 2 1 123 (by decide)]
  simp only [sampleOne, unitSample, rngOutput, splitmixMix, uniformEntry123,
    List.range_succ, List.map_append, List.map_cons, List.map_nil,
    List.replicate, List.append_nil, Nat.reducePow, Nat.reduceMul,
    Nat.reduceAdd, Nat.reduceMod, Nat.reduceShiftRight, Nat.reduceXor,
    Nat.reduceDiv, Option.some.injEq, HashMapEmbeddingEntry.mk.injEq]
  norm_num

/-- Witness for the BoundedUniform construction claim at the concrete
scenario of the spec: dim 4, extra 2, sign 123, BoundedUniform(0,1),
seed 1. -/
theorem new_bounded_uniform_spec_witness :
    ((0 : ℚ) < 1 ∧
        HashMapEmbeddingEntry.new (.BoundedUniform 0 1) 4 2 1 123 =
          some uniformEntry123) ∧
      uniformEntry123.inner.length = 4 + 2 ∧
      uniformEntry123.opt? = some (List.replicate 2 (0 : ℚ)) :=
  ⟨⟨by norm_num, new_uniform123_eval⟩,
    (new_bounded_uniform_spec 0 1 4 2 1 123 uniformEntry123 (by norm_num)
        new_uniform123_eval).1,
    (new_bounded_uniform_spec 0 1 4 2 1 123 uniformEntry123 (by norm_num)
        new_uniform123_eval).2.2.2⟩

/-- Claim C6: the key an entry reports to the eviction container equals its
own sign, and no operation — copy_from_other or stores through the mutable
weight and optimizer slices — ever changes the sign field, so the key an
entry is stored under and its own sign cannot diverge. -/
theorem hashmap_key_and_sign_stable (e other : HashMapEmbeddingEntry)
    (i : Nat) (v : ℚ) :
    e.hashmap_key = e.sign ∧
      (e.copy_from_other other).2.sign = e.sign ∧
      (e.emb_mut_write i v).sign = e.sign ∧
      (e.opt_mut_write i v).sign = e.sign := by
  refine ⟨rfl, ?_, rfl, rfl⟩
  unfold HashMapEmbeddingEntry.copy_from_other
  split <;> rfl

/-- Claim C7: for a configuration variant outside the four bounded
distributions, new aborts (the Rust panic, modelled as none) instead of
returning an entry or silently falling back to a supported distribution;
the failure is at construction. -/
theorem new_unsupported_aborts (m : InitializationMethod)
    (dim require_space seed sign : Nat) (h : isBoundedMethod m = false) :
    HashMapEmbeddingEntry.new m dim require_space seed sign = none := by
  cases m with
  | BoundedUniform lower upper => simp [isBoundedMethod] at h
  | BoundedGamma shape scale => simp [isBoundedMethod] at h
  | BoundedPoisson lambda => simp [isBoundedMethod] at h
  | BoundedNormal mean standard_deviation => simp [isBoundedMethod] at h
  | Unsupported tag => rfl

/-- Witness for the unsupported-method claim at a concrete unsupported
variant. -/
theorem new_unsupported_aborts_witness :
    isBoundedMethod (.Unsupported 0) = false ∧
      HashMapEmbeddingEntry.new (.Unsupported 0) 4 2 1 123 = none :=
  ⟨rfl, new_unsupported_aborts (.Unsupported 0) 4 2 1 123 rfl⟩

/-- Claim C3: writing an ArrayEmbeddingEntry with write_to and reading the
produced bytes back with read_from yields an entry with identical sign,
identical embedding_dim and an identical element-wise payload buffer, for
every entry whose fields fit their wire widths (embedding_dim and sign in
64 bits, payload elements in 32 bits). -/
theorem array_write_read_roundtrip (e : ArrayEmbeddingEntry)
    (hd : e.embedding_dim < 2 ^ 64) (hs : e.sign < 2 ^ 64)
    (hw : ∀ w ∈ e.inner, w < 2 ^ 32) :
    ArrayEmbeddingEntry.read_from e.write_to = some e := by
  obtain ⟨inn, d, s⟩ := e
  have hd' : d < 256 ^ 8 := by
    norm_num at hd ⊢
    omega
  have hs' : s < 256 ^ 8 := by
    norm_num at hs ⊢
    omega
  have htod : toLEBytes 8 d =
      [d % 256, d / 256 % 256, d / 256 / 256 % 256, d / 256 / 256 / 256 % 256,
        d / 256 / 256 / 256 / 256 % 256, d / 256 / 256 / 256 / 256 / 256 % 256,
        d / 256 / 256 / 256 / 256 / 256 / 256 % 256,
        d / 256 / 256 / 256 / 256 / 256 / 256 / 256 % 256] := rfl
  have htos : toLEBytes 8 s =
      [s % 256, s / 256 % 256, s / 256 / 256 % 256, s / 256 / 256 / 256 % 256,
        s / 256 / 256 / 256 / 256 % 256, s / 256 / 256 / 256 / 256 / 256 % 256,
        s / 256 / 256 / 256 / 256 / 256 / 256 % 256,
        s / 256 / 256 / 256 / 256 / 256 / 256 / 256 % 256] := rfl
  have hfromd : fromLEBytes [d % 256, d / 256 % 256, d / 256 / 256 % 256,
      d / 256 / 256 / 256 % 256, d / 256 / 256 / 256 / 256 % 256,
      d / 256 / 256 / 256 / 256 / 256 % 256,
      d / 256 / 256 / 256 / 256 / 256 / 256 % 256,
      d / 256 / 256 / 256 / 256 / 256 / 256 / 256 % 256] = d := by
    rw [← htod]
    exact fromLEBytes_toLEBytes 8 d hd'
  have hfroms : fromLEBytes [s % 256, s / 256 % 256, s / 256 / 256 % 256,
      s / 256 / 256 / 256 % 256, s / 256 / 256 / 256 / 256 % 256,
      s / 256 / 256 / 256 / 256 / 256 % 256,
      s / 256 / 256 / 256 / 256 / 256 / 256 % 256,
      s / 256 / 256 / 256 / 256 / 256 / 256 / 256 % 256] = s := by
    rw [← htos]
    exact fromLEBytes_toLEBytes 8 s hs'
  simp only [ArrayEmbeddingEntry.write_to, htod, htos, List.cons_append,
    List.nil_append, ArrayEmbeddingEntry.read_from,
    readPayload_flatten inn hw, Option.map_some', hfromd, hfroms]

/-- Witness for the serialization round-trip claim at a concrete entry with
a two-element payload. -/
theorem array_write_read_roundtrip_witness :
    ArrayEmbeddingEntry.read_from
        (ArrayEmbeddingEntry.write_to ⟨[1, 4294967295], 2, 123⟩) =
      some ⟨[1, 4294967295], 2, 123⟩ :=
  array_write_read_roundtrip ⟨[1, 4294967295], 2, 123⟩ (by decide) (by decide)
    (by decide)

/-- Claim C8: the byte record produced by write_to is exactly
embedding_dim as a 64-bit little-endian unsigned integer, then sign as a
64-bit little-endian unsigned integer, followed immediately by the buffer
elements as little-endian 32-bit words, with no other fields: the record
length is 16 + 4 times the element count, the first two 8-byte groups
decode to embedding_dim and sign, and the remaining bytes decode exactly to
the payload elements. -/
theorem write_to_layout (e : ArrayEmbeddingEntry)
    (hd : e.embedding_dim < 2 ^ 64) (hs : e.sign < 2 ^ 64)
    (hw : ∀ w ∈ e.inner, w < 2 ^ 32) :
    e.write_to.length = 16 + 4 * e.inner.length ∧
      fromLEBytes (e.write_to.take 8) = e.embedding_dim ∧
      fromLEBytes ((e.write_to.drop 8).take 8) = e.sign ∧
      e.write_to.drop 16 = (e.inner.map (toLEBytes 4)).flatten ∧
      ArrayEmbeddingEntry.readPayload (e.write_to.drop 16) = some e.inner := by
  obtain ⟨inn, d, s⟩ := e
  have hd' : d < 256 ^ 8 := by
    norm_num at hd ⊢
    omega
  have hs' : s < 256 ^ 8 := by
    norm_num at hs ⊢
    omega
  have hdrop16 :
      (ArrayEmbeddingEntry.write_to ⟨inn, d, s⟩).drop 16 =
        (inn.map (toLEBytes 4)).flatten := by
    show (toLEBytes 8 d ++ (toLEBytes 8 s ++ (inn.map (toLEBytes 4)).flatten)).drop 16 =
      (inn.map (toLEBytes 4)).flatten
    rw [show (16 : Nat) = 8 + 8 from rfl, ← List.drop_drop,
      drop_length_append _ _ 8 (toLEBytes_length 8 d),
      drop_length_append _ _ 8 (toLEBytes_length 8 s)]
  refine ⟨?_, ?_, ?_, hdrop16, ?_⟩
  · show (toLEBytes 8 d ++ (toLEBytes 8 s ++ (inn.map (toLEBytes 4)).flatten)).length =
      16 + 4 * inn.length
    simp only [List.length_append, toLEBytes_length, flatten4_length]
    omega
  · show fromLEBytes ((toLEBytes 8 d ++
        (toLEBytes 8 s ++ (inn.map (toLEBytes 4)).flatten)).take 8) = d
    rw [take_length_append _ _ 8 (toLEBytes_length 8 d)]
    exact fromLEBytes_toLEBytes 8 d hd'
  · show fromLEBytes (((toLEBytes 8 d ++
        (toLEBytes 8 s ++ (inn.map (toLEBytes 4)).flatten)).drop 8).take 8) = s
    rw [drop_length_append _ _ 8 (toLEBytes_length 8 d),
      take_length_append _ _ 8 (toLEBytes_length 8 s)]
    exact fromLEBytes_toLEBytes 8 s hs'
  · rw [hdrop16]
    exact readPayload_flatten inn hw

/-- Witness for the record-layout claim at a concrete entry with a
two-element payload. -/
theorem write_to_layout_witness :
    (ArrayEmbeddingEntry.write_to ⟨[1, 4294967295], 2, 123⟩).length =
        16 + 4 * 2 ∧
      fromLEBytes
        ((ArrayEmbeddingEntry.write_to ⟨[1, 4294967295], 2, 123⟩).take 8) = 2 := by
  have h := write_to_layout ⟨[1, 4294967295], 2, 123⟩ (by decide) (by decide)
    (by decide)
  exact ⟨h.1, h.2.1⟩

/-- Claim C10: every constructor establishes that embedding_dim is at most
the buffer length; copy_from_other and stores through the mutable slices
change neither embedding_dim nor the buffer length; under that invariant
the slicing in emb, opt and emb_and_opt_mut is in bounds (never the panic
branch), and the weight and optimizer slices partition the buffer at index
embedding_dim. -/
theorem entry_layout_safe (m : InitializationMethod)
    (dim require_space seed sign0 : Nat) (emb0 opt0 : List ℚ)
    (e other : HashMapEmbeddingEntry) (i : Nat) (v : ℚ)
    (hwf : e.embedding_dim ≤ e.inner.length) :
    (∀ e1, HashMapEmbeddingEntry.new m dim require_space seed sign0 = some e1 →
        e1.embedding_dim ≤ e1.inner.length) ∧
      (HashMapEmbeddingEntry.new_empty dim require_space sign0).embedding_dim ≤
        (HashMapEmbeddingEntry.new_empty dim require_space sign0).inner.length ∧
      (HashMapEmbeddingEntry.from_emb emb0 sign0).embedding_dim ≤
        (HashMapEmbeddingEntry.from_emb emb0 sign0).inner.length ∧
      (HashMapEmbeddingEntry.from_emb_and_opt emb0 opt0 sign0).embedding_dim ≤
        (HashMapEmbeddingEntry.from_emb_and_opt emb0 opt0 sign0).inner.length ∧
      (e.copy_from_other other).2.embedding_dim = e.embedding_dim ∧
      (e.copy_from_other other).2.inner.length = e.inner.length ∧
      (e.emb_mut_write i v).embedding_dim = e.embedding_dim ∧
      (e.emb_mut_write i v).inner.length = e.inner.length ∧
      (e.opt_mut_write i v).embedding_dim = e.embedding_dim ∧
      (e.opt_mut_write i v).inner.length = e.inner.length ∧
      e.emb? = some (e.inner.take e.embedding_dim) ∧
      e.opt? = some (e.inner.drop e.embedding_dim) ∧
      e.emb_and_opt_mut? =
        some (e.inner.take e.embedding_dim, e.inner.drop e.embedding_dim) ∧
      e.inner.take e.embedding_dim ++ e.inner.drop e.embedding_dim =
        e.inner := by
  refine ⟨?_, ?_, ?_, ?_, ?_, ?_, rfl, ?_, rfl, ?_, ?_, ?_, ?_, ?_⟩
  · intro e1 h1
    by_cases hvm : methodValid m = true
    · rw [new_eq_of_valid _ _ _ _ _ hvm] at h1
      obtain rfl : e1 = _ := (Option.some.inj h1).symm
      simp
    · simp only [HashMapEmbeddingEntry.new] at h1
      rw [if_neg hvm] at h1
      cases h1
  · simp [HashMapEmbeddingEntry.new_empty]
  · simp [HashMapEmbeddingEntry.from_emb]
  · simp only [HashMapEmbeddingEntry.from_emb_and_opt, List.length_append]
    exact Nat.le_add_right _ _
  · unfold HashMapEmbeddingEntry.copy_from_other
    split <;> rfl
  · unfold HashMapEmbeddingEntry.copy_from_other
    split
    · rfl
    · exact overwriteFront_length _ _
  · simp [HashMapEmbeddingEntry.emb_mut_write]
  · simp [HashMapEmbeddingEntry.opt_mut_write]
  · simp [HashMapEmbeddingEntry.emb?, hwf]
  · simp [HashMapEmbeddingEntry.opt?, hwf]
  · simp [HashMapEmbeddingEntry.emb_and_opt_mut?, hwf]
  · exact List.take_append_drop _ _

/-- Witness for the layout-safety claim at a concrete entry with a
three-element weight region and a two-element optimizer region. -/
theorem entry_layout_safe_witness :
    (HashMapEmbeddingEntry.from_emb_and_opt [1, 2, 3] [4, 5] 9).embedding_dim ≤
        (HashMapEmbeddingEntry.from_emb_and_opt [1, 2, 3] [4, 5] 9).inner.length ∧
      (HashMapEmbeddingEntry.from_emb_and_opt [1, 2, 3] [4, 5] 9).emb? =
        some ((HashMapEmbeddingEntry.from_emb_and_opt [1, 2, 3] [4, 5] 9).inner.take
          (HashMapEmbeddingEntry.from_emb_and_opt [1, 2, 3] [4, 5] 9).embedding_dim) := by
  have h := entry_layout_safe (.Unsupported 0) 1 1 1 9 [1, 2, 3] [4, 5]
    (HashMapEmbeddingEntry.from_emb_and_opt [1, 2, 3] [4, 5] 9)
    (HashMapEmbeddingEntry.new_empty 1 0 2) 0 0 (by decide)
  exact ⟨h.2.2.2.1, h.2.2.2.2.2.2.2.2.2.2.1⟩

end PersiaEmb
